import Mathlib

/- Verification development for the pygeohash geohash codec and neighbor
   resolver.  Python floats are modelled by exact rationals: every quantity
   manipulated by the bisection loops is a dyadic rational that fits well
   inside an IEEE double, so the rational semantics agrees with the float
   semantics on these code paths.  Python strings are modelled as `List Char`;
   a fallible operation (dictionary lookup, `str.index`, `raise`) is modelled
   with `Option`. -/

/-- The geohash base-32 alphabet `__base32` from `src/pygeohash/geohash.py`. -/
def base32 : List Char := "0123456789bcdefghjkmnpqrstuvwxyz".toList

/-- The inverse lookup `__decodemap`; `none` models a Python `KeyError`. -/
def decodemap (c : Char) : Option ℕ := base32.findIdx? (fun b => b == c)

/-- The bit-weight list `bits = [16, 8, 4, 2, 1]` used by `encode`. -/
def bitWeights : List ℕ := [16, 8, 4, 2, 1]

/-- The `while len(geohash) < precision` loop of `encode`
(`src/pygeohash/geohash.py`).  The loop body runs exactly five times per
emitted character, so `encode` passes `5 * precision` as fuel; the length
guard is kept so the recursion mirrors the source loop exactly.  Python's
`__base32[ch]` indexing is modelled with `getD` (the index is always in
range, proved separately). -/
def encodeLoop (latitude longitude : ℚ) (precision : ℕ) :
    ℕ → ℚ → ℚ → ℚ → ℚ → List Char → ℕ → ℕ → Bool → List Char
  | 0, _, _, _, _, gh, _, _, _ => gh
  | fuel + 1, lat_lo, lat_hi, lon_lo, lon_hi, gh, bit, ch, even =>
    if gh.length < precision then
      match
        (if even then
          let mid := (lon_lo + lon_hi) / 2
          if longitude ≥ mid then (lat_lo, lat_hi, mid, lon_hi, ch ||| bitWeights.getD bit 0)
          else (lat_lo, lat_hi, lon_lo, mid, ch)
        else
          let mid := (lat_lo + lat_hi) / 2
          if latitude ≥ mid then (mid, lat_hi, lon_lo, lon_hi, ch ||| bitWeights.getD bit 0)
          else (lat_lo, mid, lon_lo, lon_hi, ch)) with
      | (lat_lo', lat_hi', lon_lo', lon_hi', ch') =>
        if bit < 4 then
          encodeLoop latitude longitude precision fuel
            lat_lo' lat_hi' lon_lo' lon_hi' gh (bit + 1) ch' (!even)
        else
          encodeLoop latitude longitude precision fuel
            lat_lo' lat_hi' lon_lo' lon_hi' (gh ++ [base32.getD ch' ' ']) 0 0 (!even)
    else gh

/-- `encode(latitude, longitude, precision=12)` from `src/pygeohash/geohash.py`. -/
def encode (latitude longitude : ℚ) (precision : ℕ := 12) : List Char :=
  encodeLoop latitude longitude precision (5 * precision) (-90) 90 (-180) 180 [] 0 0 true

/-- The loop of `encode_strictly`, which in the source is a literal copy of
the loop of `encode` (same `>=` midpoint comparison). -/
def encodeStrictlyLoop (latitude longitude : ℚ) (precision : ℕ) :
    ℕ → ℚ → ℚ → ℚ → ℚ → List Char → ℕ → ℕ → Bool → List Char
  | 0, _, _, _, _, gh, _, _, _ => gh
  | fuel + 1, lat_lo, lat_hi, lon_lo, lon_hi, gh, bit, ch, even =>
    if gh.length < precision then
      match
        (if even then
          let mid := (lon_lo + lon_hi) / 2
          if longitude ≥ mid then (lat_lo, lat_hi, mid, lon_hi, ch ||| bitWeights.getD bit 0)
          else (lat_lo, lat_hi, lon_lo, mid, ch)
        else
          let mid := (lat_lo + lat_hi) / 2
          if latitude ≥ mid then (mid, lat_hi, lon_lo, lon_hi, ch ||| bitWeights.getD bit 0)
          else (lat_lo, mid, lon_lo, lon_hi, ch)) with
      | (lat_lo', lat_hi', lon_lo', lon_hi', ch') =>
        if bit < 4 then
          encodeStrictlyLoop latitude longitude precision fuel
            lat_lo' lat_hi' lon_lo' lon_hi' gh (bit + 1) ch' (!even)
        else
          encodeStrictlyLoop latitude longitude precision fuel
            lat_lo' lat_hi' lon_lo' lon_hi' (gh ++ [base32.getD ch' ' ']) 0 0 (!even)
    else gh

/-- `encode_strictly(latitude, longitude, precision=12)` from
`src/pygeohash/geohash.py`. -/
def encode_strictly (latitude longitude : ℚ) (precision : ℕ := 12) : List Char :=
  encodeStrictlyLoop latitude longitude precision (5 * precision) (-90) 90 (-180) 180 [] 0 0 true

/-- State of the `decode_exactly` loop: the two intervals, the two error
widths and the axis-alternation flag. -/
structure DecodeSt where
  lat_lo : ℚ
  lat_hi : ℚ
  lon_lo : ℚ
  lon_hi : ℚ
  lat_err : ℚ
  lon_err : ℚ
  is_even : Bool
  deriving Repr, DecidableEq

/-- One iteration of `for mask in [16, 8, 4, 2, 1]` inside `decode_exactly`:
Python's truthiness test `if cd & mask` is the test `cd &&& mask ≠ 0`. -/
def decodeMaskStep (cd : ℕ) (st : DecodeSt) (mask : ℕ) : DecodeSt :=
  if st.is_even then
    { st with
      lon_err := st.lon_err / 2
      lon_lo := if cd &&& mask ≠ 0 then (st.lon_lo + st.lon_hi) / 2 else st.lon_lo
      lon_hi := if cd &&& mask ≠ 0 then st.lon_hi else (st.lon_lo + st.lon_hi) / 2
      is_even := !st.is_even }
  else
    { st with
      lat_err := st.lat_err / 2
      lat_lo := if cd &&& mask ≠ 0 then (st.lat_lo + st.lat_hi) / 2 else st.lat_lo
      lat_hi := if cd &&& mask ≠ 0 then st.lat_hi else (st.lat_lo + st.lat_hi) / 2
      is_even := !st.is_even }

/-- The `for c in geohash` loop of `decode_exactly`; a character outside the
alphabet makes `__decodemap[c]` raise `KeyError`, modelled as `none`. -/
def decodeExactlyLoop : List Char → DecodeSt → Option DecodeSt
  | [], st => some st
  | c :: cs, st =>
    match decodemap c with
    | none => none
    | some cd => decodeExactlyLoop cs (bitWeights.foldl (decodeMaskStep cd) st)

/-- Return type of `decode_exactly` (`ExactLatLong` in the source). -/
structure ExactLatLong where
  latitude : ℚ
  longitude : ℚ
  latitude_error : ℚ
  longitude_error : ℚ
  deriving Repr, DecidableEq

/-- Return type of `decode` (`LatLong` in the source). -/
structure LatLong where
  latitude : ℚ
  longitude : ℚ
  deriving Repr, DecidableEq

/-- `decode_exactly(geohash)` from `src/pygeohash/geohash.py`. -/
def decode_exactly (geohash : List Char) : Option ExactLatLong :=
  (decodeExactlyLoop geohash ⟨-90, 90, -180, 180, 90, 180, true⟩).map fun st =>
    ⟨(st.lat_lo + st.lat_hi) / 2, (st.lon_lo + st.lon_hi) / 2, st.lat_err, st.lon_err⟩

/-- Search loop of `roundNegLog10`: the first `i` (counting up, `m = i - 10`)
with `1 < e^2 * 10^(2*m+1)`, the latter written with natural exponents as
`10^19 < e^2 * 10^(2*i)`. -/
def rnlAux (e : ℚ) : ℕ → ℕ → ℤ
  | 0, _ => 50
  | fuel + 1, i => if (10 : ℚ) ^ 19 < e ^ 2 * 10 ^ (2 * i) then (i : ℤ) - 10 else rnlAux e fuel (i + 1)

/-- The exact value of Python's `int(round(-log10(e)))` for the error widths
reached by `decode` (`e = 90 / 2^k` or `180 / 2^k`): the nearest integer `m`
to `-log10 e`, characterised without logarithms as the least `m` with
`1 < e^2 * 10^(2*m+1)` (three digits of margin separate every reachable `e`
from a rounding tie, so the float computation in the source returns exactly
this integer).  The search range `m = -10 .. 50` covers every error width
reachable from a geohash of length at most 24. -/
def roundNegLog10 (e : ℚ) : ℤ := rnlAux e 61 0

/-- The number of decimals `max(1, int(round(-log10(err)))) - 1` that
`decode` keeps for one axis. -/
def decimalsOf (err : ℚ) : ℕ := (max 1 (roundNegLog10 err) - 1).toNat

/-- Round-half-to-even on rationals: the exact rounding performed by
Python's `"%.*f"` formatting on the dyadic values produced by
`decode_exactly`. -/
def pyRoundHalfEven (y : ℚ) : ℤ :=
  if y - ⌊y⌋ < 1 / 2 then ⌊y⌋
  else if 1 / 2 < y - ⌊y⌋ then ⌊y⌋ + 1
  else if ⌊y⌋ % 2 = 0 then ⌊y⌋ else ⌊y⌋ + 1

/-- Rounding a coordinate to `d` decimal places, the exact value of
`float("%.*f" % (d, x))` (the `rstrip("0")` in the source only strips
trailing zeros of the decimal literal and does not change its value). -/
def roundDec (d : ℕ) (x : ℚ) : ℚ :=
  (pyRoundHalfEven (x * 10 ^ d) : ℚ) / 10 ^ d

/-- `decode(geohash)` from `src/pygeohash/geohash.py`: decode exactly, then
keep `max(1, int(round(-log10(err)))) - 1` decimals per axis. -/
def decode (geohash : List Char) : Option LatLong :=
  (decode_exactly geohash).map fun r =>
    ⟨roundDec (decimalsOf r.latitude_error) r.latitude,
     roundDec (decimalsOf r.longitude_error) r.longitude⟩

/- § Neighbor resolver (src/pygeohash/neighbor.py) -/

/-- The `Direction` literal type from `src/pygeohash/types.py`. -/
inductive Direction where
  | right
  | left
  | top
  | bottom
  deriving DecidableEq, Repr

/-- The `NEIGHBORS` permutation tables from `src/pygeohash/neighbor.py`;
the Bool argument is the `"even"`/`"odd"` split key (`true` = `"even"`). -/
def NEIGHBORS (direction : Direction) (even_split : Bool) : List Char :=
  match direction, even_split with
  | .right, true => "bc01fg45238967deuvhjyznpkmstqrwx".toList
  | .right, false => "p0r21436x8zb9dcf5h7kjnmqesgutwvy".toList
  | .left, true => "238967debc01fg45kmstqrwxuvhjyznp".toList
  | .left, false => "14365h7k9dcfesgujnmqp0r2twvyx8zb".toList
  | .top, true => "p0r21436x8zb9dcf5h7kjnmqesgutwvy".toList
  | .top, false => "bc01fg45238967deuvhjyznpkmstqrwx".toList
  | .bottom, true => "14365h7k9dcfesgujnmqp0r2twvyx8zb".toList
  | .bottom, false => "238967debc01fg45kmstqrwxuvhjyznp".toList

/-- The `BORDERS` tables from `src/pygeohash/neighbor.py`. -/
def BORDERS (direction : Direction) (even_split : Bool) : List Char :=
  match direction, even_split with
  | .right, true => "bcfguvyz".toList
  | .right, false => "prxz".toList
  | .left, true => "0145hjnp".toList
  | .left, false => "028b".toList
  | .top, true => "prxz".toList
  | .top, false => "bcfguvyz".toList
  | .bottom, true => "028b".toList
  | .bottom, false => "0145hjnp".toList

/-- The recursion of `get_adjacent`, phrased on the reversed character list
so that dropping the last character is structural.  The head of the input is
`geohash[-1]`, the tail is the reversed `geohash[:-1]`.  `none` models the
`ValueError("The geohash length cannot be 0...")` raised on an empty input
at any recursion level; the two `Option` lookups model `str.index` (raises
`ValueError` when absent) and `__base32[idx]` (never out of range since the
table rows have 32 characters).  The source lowercases at every level, which
is idempotent, so the single lowercase pass in `get_adjacent` is faithful. -/
def getAdjacentRev (direction : Direction) : List Char → Option (List Char)
  | [] => none
  | last_char :: baseRev =>
    let even_split : Bool := (baseRev.length + 1) % 2 == 0
    (if last_char ∈ BORDERS direction even_split then getAdjacentRev direction baseRev
     else some baseRev).bind fun b =>
      ((NEIGHBORS direction even_split).findIdx? (fun x => x == last_char)).bind fun idx =>
        (base32[idx]?).map fun c => c :: b

/-- `get_adjacent(geohash, direction)` from `src/pygeohash/neighbor.py`. -/
def get_adjacent (geohash : List Char) (direction : Direction) : Option (List Char) :=
  (getAdjacentRev direction ((geohash.map Char.toLower).reverse)).map List.reverse

/- § Numba backend (src/pygeohash/nbgeohash.py) -/

/-- The `while n < precision` loop of `nb_point_encode`
(`src/pygeohash/nbgeohash.py`).  Identical to the loop of `encode` except
that the midpoint comparisons are strict (`longitude > mid`, `latitude >
mid`); the preallocated numpy character array indexed by `n` is modelled by
the growing list `gh` (with `n = gh.length`). -/
def nbEncodeLoop (latitude longitude : ℚ) (precision : ℕ) :
    ℕ → ℚ → ℚ → ℚ → ℚ → List Char → ℕ → ℕ → Bool → List Char
  | 0, _, _, _, _, gh, _, _, _ => gh
  | fuel + 1, lat_neg, lat_pos, lon_neg, lon_pos, gh, bit, ch, even =>
    if gh.length < precision then
      match
        (if even then
          let mid := (lon_neg + lon_pos) / 2
          if longitude > mid then (lat_neg, lat_pos, mid, lon_pos, ch ||| bitWeights.getD bit 0)
          else (lat_neg, lat_pos, lon_neg, mid, ch)
        else
          let mid := (lat_neg + lat_pos) / 2
          if latitude > mid then (mid, lat_pos, lon_neg, lon_pos, ch ||| bitWeights.getD bit 0)
          else (lat_neg, mid, lon_neg, lon_pos, ch)) with
      | (lat_neg', lat_pos', lon_neg', lon_pos', ch') =>
        if bit < 4 then
          nbEncodeLoop latitude longitude precision fuel
            lat_neg' lat_pos' lon_neg' lon_pos' gh (bit + 1) ch' (!even)
        else
          nbEncodeLoop latitude longitude precision fuel
            lat_neg' lat_pos' lon_neg' lon_pos' (gh ++ [base32.getD ch' ' ']) 0 0 (!even)
    else gh

/-- `nb_point_encode(latitude, longitude, precision=12)` from
`src/pygeohash/nbgeohash.py`. -/
def nb_point_encode (latitude longitude : ℚ) (precision : ℕ := 12) : List Char :=
  nbEncodeLoop latitude longitude precision (5 * precision) (-90) 90 (-180) 180 [] 0 0 true

/-- Tie-freedom check for the bisection: `true` when neither coordinate ever
equals the current interval midpoint during the first `fuel` iterations of
the encoding loop.  On tie-free inputs the `>=` of `encode` and the `>` of
`nb_point_encode` take the same branches. -/
def noTieLoop (latitude longitude : ℚ) (precision : ℕ) :
    ℕ → ℚ → ℚ → ℚ → ℚ → ℕ → ℕ → Bool → Bool
  | 0, _, _, _, _, _, _, _ => true
  | fuel + 1, lat_lo, lat_hi, lon_lo, lon_hi, len, bit, even =>
    if len < precision then
      (if even then
        let mid := (lon_lo + lon_hi) / 2
        decide (longitude ≠ mid) &&
          (if longitude ≥ mid then
            noTieLoop latitude longitude precision fuel lat_lo lat_hi mid lon_hi
              (if bit < 4 then len else len + 1) (if bit < 4 then bit + 1 else 0) (!even)
          else
            noTieLoop latitude longitude precision fuel lat_lo lat_hi lon_lo mid
              (if bit < 4 then len else len + 1) (if bit < 4 then bit + 1 else 0) (!even))
      else
        let mid := (lat_lo + lat_hi) / 2
        decide (latitude ≠ mid) &&
          (if latitude ≥ mid then
            noTieLoop latitude longitude precision fuel mid lat_hi lon_lo lon_hi
              (if bit < 4 then len else len + 1) (if bit < 4 then bit + 1 else 0) (!even)
          else
            noTieLoop latitude longitude precision fuel lat_lo mid lon_lo lon_hi
              (if bit < 4 then len else len + 1) (if bit < 4 then bit + 1 else 0) (!even)))
    else true

/-- `noTie lat lon p`: no bisection comparison of `encode lat lon p` is an
exact midpoint tie. -/
def noTie (latitude longitude : ℚ) (precision : ℕ) : Bool :=
  noTieLoop latitude longitude precision (5 * precision) (-90) 90 (-180) 180 0 0 true

/- § Proof layer: per-axis view of the interleaved bisection loops. -/

/-- Lower endpoint after one bisection step of `encode` (`>=` tie-break). -/
def bisectLo (v lo hi : ℚ) : ℚ := if v ≥ (lo + hi) / 2 then (lo + hi) / 2 else lo

/-- Upper endpoint after one bisection step of `encode`. -/
def bisectHi (v lo hi : ℚ) : ℚ := if v ≥ (lo + hi) / 2 then hi else (lo + hi) / 2

/-- The bit emitted by one bisection step of `encode`. -/
def bisectBit (v lo hi : ℚ) : Bool := decide (v ≥ (lo + hi) / 2)

/-- Interval state of the encoder (both axes). -/
structure EncSt where
  lat_lo : ℚ
  lat_hi : ℚ
  lon_lo : ℚ
  lon_hi : ℚ
  deriving Repr, DecidableEq

/-- Lower endpoint of the half-interval selected by a known bit. -/
def bitUpdLo (b : Bool) (lo hi : ℚ) : ℚ := if b then (lo + hi) / 2 else lo

/-- Upper endpoint of the half-interval selected by a known bit. -/
def bitUpdHi (b : Bool) (lo hi : ℚ) : ℚ := if b then hi else (lo + hi) / 2

/-- Apply a known bit to the axis selected by the parity flag. -/
def encUpd (b : Bool) (e : Bool) (s : EncSt) : EncSt :=
  if e then ⟨s.lat_lo, s.lat_hi, bitUpdLo b s.lon_lo s.lon_hi, bitUpdHi b s.lon_lo s.lon_hi⟩
  else ⟨bitUpdLo b s.lat_lo s.lat_hi, bitUpdHi b s.lat_lo s.lat_hi, s.lon_lo, s.lon_hi⟩

/-- The bit the encoder emits from state `s` at parity `e`. -/
def encBit (latitude longitude : ℚ) (e : Bool) (s : EncSt) : Bool :=
  if e then bisectBit longitude s.lon_lo s.lon_hi else bisectBit latitude s.lat_lo s.lat_hi

/-- Packing five bits into one base-32 symbol code, MSB first, exactly as the
`ch |= bits[bit]` accumulation does. -/
def chOf (b0 b1 b2 b3 b4 : Bool) : ℕ :=
  let c1 := if b0 then 0 ||| 16 else 0
  let c2 := if b1 then c1 ||| 8 else c1
  let c3 := if b2 then c2 ||| 4 else c2
  let c4 := if b3 then c3 ||| 2 else c3
  if b4 then c4 ||| 1 else c4

/-- Interval state after five known bits applied at alternating parities
starting with `e`. -/
def decCharSt (b0 b1 b2 b3 b4 : Bool) (e : Bool) (s : EncSt) : EncSt :=
  encUpd b4 e (encUpd b3 (!e) (encUpd b2 e (encUpd b1 (!e) (encUpd b0 e s))))

/-- The five bits the encoder emits for one character from state `s` at
starting parity `e`. -/
def encCharBits (latitude longitude : ℚ) (e : Bool) (s : EncSt) :
    Bool × Bool × Bool × Bool × Bool :=
  let b0 := encBit latitude longitude e s
  let s1 := encUpd b0 e s
  let b1 := encBit latitude longitude (!e) s1
  let s2 := encUpd b1 (!e) s1
  let b2 := encBit latitude longitude e s2
  let s3 := encUpd b2 e s2
  let b3 := encBit latitude longitude (!e) s3
  let s4 := encUpd b3 (!e) s3
  let b4 := encBit latitude longitude e s4
  (b0, b1, b2, b3, b4)

/-- One character of encoding: the symbol code and the new interval state. -/
def encChar (latitude longitude : ℚ) (e : Bool) (s : EncSt) : ℕ × EncSt :=
  match encCharBits latitude longitude e s with
  | (b0, b1, b2, b3, b4) => (chOf b0 b1 b2 b3 b4, decCharSt b0 b1 b2 b3 b4 e s)

/-- Per-character view of the encoder output. -/
def encChars (latitude longitude : ℚ) : ℕ → Bool → EncSt → List Char
  | 0, _, _ => []
  | m + 1, e, s =>
    base32.getD (encChar latitude longitude e s).1 ' ' ::
      encChars latitude longitude m (!e) (encChar latitude longitude e s).2

/-- Per-character view of the encoder state evolution. -/
def encCharsSt (latitude longitude : ℚ) : ℕ → Bool → EncSt → EncSt
  | 0, _, s => s
  | m + 1, e, s => encCharsSt latitude longitude m (!e) (encChar latitude longitude e s).2

lemma encodeLoop_step_even {lat lon : ℚ} {p fuel : ℕ} {alo ahi olo ohi : ℚ}
    {gh : List Char} {bit ch : ℕ} (h : gh.length < p) (hbit : bit < 4) :
    encodeLoop lat lon p (fuel + 1) alo ahi olo ohi gh bit ch true =
      encodeLoop lat lon p fuel alo ahi (bisectLo lon olo ohi) (bisectHi lon olo ohi) gh
        (bit + 1) (if bisectBit lon olo ohi then ch ||| bitWeights.getD bit 0 else ch) false := by
  by_cases hc : lon ≥ (olo + ohi) / 2 <;>
    simp [encodeLoop, h, hbit, bisectLo, bisectHi, bisectBit, hc]

lemma encodeLoop_step_odd {lat lon : ℚ} {p fuel : ℕ} {alo ahi olo ohi : ℚ}
    {gh : List Char} {bit ch : ℕ} (h : gh.length < p) (hbit : bit < 4) :
    encodeLoop lat lon p (fuel + 1) alo ahi olo ohi gh bit ch false =
      encodeLoop lat lon p fuel (bisectLo lat alo ahi) (bisectHi lat alo ahi) olo ohi gh
        (bit + 1) (if bisectBit lat alo ahi then ch ||| bitWeights.getD bit 0 else ch) true := by
  by_cases hc : lat ≥ (alo + ahi) / 2 <;>
    simp [encodeLoop, h, hbit, bisectLo, bisectHi, bisectBit, hc]

lemma encodeLoop_emit_even {lat lon : ℚ} {p fuel : ℕ} {alo ahi olo ohi : ℚ}
    {gh : List Char} {ch : ℕ} (h : gh.length < p) :
    encodeLoop lat lon p (fuel + 1) alo ahi olo ohi gh 4 ch true =
      encodeLoop lat lon p fuel alo ahi (bisectLo lon olo ohi) (bisectHi lon olo ohi)
        (gh ++ [base32.getD (if bisectBit lon olo ohi then ch ||| 1 else ch) ' '])
        0 0 false := by
  by_cases hc : lon ≥ (olo + ohi) / 2 <;>
    simp [encodeLoop, h, bisectLo, bisectHi, bisectBit, hc, bitWeights]

lemma encodeLoop_emit_odd {lat lon : ℚ} {p fuel : ℕ} {alo ahi olo ohi : ℚ}
    {gh : List Char} {ch : ℕ} (h : gh.length < p) :
    encodeLoop lat lon p (fuel + 1) alo ahi olo ohi gh 4 ch false =
      encodeLoop lat lon p fuel (bisectLo lat alo ahi) (bisectHi lat alo ahi) olo ohi
        (gh ++ [base32.getD (if bisectBit lat alo ahi then ch ||| 1 else ch) ' '])
        0 0 true := by
  by_cases hc : lat ≥ (alo + ahi) / 2 <;>
    simp [encodeLoop, h, bisectLo, bisectHi, bisectBit, hc, bitWeights]

lemma bitUpdLo_bisect (v lo hi : ℚ) : bitUpdLo (bisectBit v lo hi) lo hi = bisectLo v lo hi := by
  by_cases hc : v ≥ (lo + hi) / 2 <;> simp [bitUpdLo, bisectBit, bisectLo, hc]

lemma bitUpdHi_bisect (v lo hi : ℚ) : bitUpdHi (bisectBit v lo hi) lo hi = bisectHi v lo hi := by
  by_cases hc : v ≥ (lo + hi) / 2 <;> simp [bitUpdHi, bisectBit, bisectHi, hc]

lemma encChar_true (lat lon alo ahi olo ohi : ℚ) :
    encChar lat lon true ⟨alo, ahi, olo, ohi⟩ =
      (chOf (bisectBit lon olo ohi) (bisectBit lat alo ahi)
          (bisectBit lon (bisectLo lon olo ohi) (bisectHi lon olo ohi))
          (bisectBit lat (bisectLo lat alo ahi) (bisectHi lat alo ahi))
          (bisectBit lon (bisectLo lon (bisectLo lon olo ohi) (bisectHi lon olo ohi))
            (bisectHi lon (bisectLo lon olo ohi) (bisectHi lon olo ohi))),
        ⟨bisectLo lat (bisectLo lat alo ahi) (bisectHi lat alo ahi),
         bisectHi lat (bisectLo lat alo ahi) (bisectHi lat alo ahi),
         bisectLo lon (bisectLo lon (bisectLo lon olo ohi) (bisectHi lon olo ohi))
           (bisectHi lon (bisectLo lon olo ohi) (bisectHi lon olo ohi)),
         bisectHi lon (bisectLo lon (bisectLo lon olo ohi) (bisectHi lon olo ohi))
           (bisectHi lon (bisectLo lon olo ohi) (bisectHi lon olo ohi))⟩) := by
  simp [encChar, encCharBits, decCharSt, encUpd, encBit, bitUpdLo_bisect, bitUpdHi_bisect]

lemma encChar_false (lat lon alo ahi olo ohi : ℚ) :
    encChar lat lon false ⟨alo, ahi, olo, ohi⟩ =
      (chOf (bisectBit lat alo ahi) (bisectBit lon olo ohi)
          (bisectBit lat (bisectLo lat alo ahi) (bisectHi lat alo ahi))
          (bisectBit lon (bisectLo lon olo ohi) (bisectHi lon olo ohi))
          (bisectBit lat (bisectLo lat (bisectLo lat alo ahi) (bisectHi lat alo ahi))
            (bisectHi lat (bisectLo lat alo ahi) (bisectHi lat alo ahi))),
        ⟨bisectLo lat (bisectLo lat (bisectLo lat alo ahi) (bisectHi lat alo ahi))
           (bisectHi lat (bisectLo lat alo ahi) (bisectHi lat alo ahi)),
         bisectHi lat (bisectLo lat (bisectLo lat alo ahi) (bisectHi lat alo ahi))
           (bisectHi lat (bisectLo lat alo ahi) (bisectHi lat alo ahi)),
         bisectLo lon (bisectLo lon olo ohi) (bisectHi lon olo ohi),
         bisectHi lon (bisectLo lon olo ohi) (bisectHi lon olo ohi)⟩) := by
  simp [encChar, encCharBits, decCharSt, encUpd, encBit, bitUpdLo_bisect, bitUpdHi_bisect]

lemma encodeLoop_eq_encChars (lat lon : ℚ) (p : ℕ) :
    ∀ (m : ℕ) (e : Bool) (alo ahi olo ohi : ℚ) (gh : List Char), gh.length + m = p →
      encodeLoop lat lon p (5 * m) alo ahi olo ohi gh 0 0 e =
        gh ++ encChars lat lon m e ⟨alo, ahi, olo, ohi⟩ := by
  intro m
  induction m with
  | zero => intro e alo ahi olo ohi gh h; simp [encodeLoop, encChars]
  | succ m ih =>
    intro e alo ahi olo ohi gh h
    have hlen : gh.length < p := by omega
    have h5 : 5 * (m + 1) = 5 * m + 1 + 1 + 1 + 1 + 1 := by ring
    rw [h5]
    cases e with
    | true =>
      rw [encodeLoop_step_even hlen (by norm_num), encodeLoop_step_odd hlen (by norm_num),
        encodeLoop_step_even hlen (by norm_num), encodeLoop_step_odd hlen (by norm_num),
        encodeLoop_emit_even hlen,
        ih false _ _ _ _ _ (by simp; omega)]
      simp [encChars, encChar_true, chOf, bitWeights]
    | false =>
      rw [encodeLoop_step_odd hlen (by norm_num), encodeLoop_step_even hlen (by norm_num),
        encodeLoop_step_odd hlen (by norm_num), encodeLoop_step_even hlen (by norm_num),
        encodeLoop_emit_odd hlen,
        ih true _ _ _ _ _ (by simp; omega)]
      simp [encChars, encChar_false, chOf, bitWeights]

lemma encode_eq_encChars (lat lon : ℚ) (p : ℕ) :
    encode lat lon p = encChars lat lon p true ⟨-90, 90, -180, 180⟩ := by
  have := encodeLoop_eq_encChars lat lon p p true (-90) 90 (-180) 180 [] (by simp)
  simpa [encode] using this

lemma chOf_lt_32 : ∀ b0 b1 b2 b3 b4 : Bool, chOf b0 b1 b2 b3 b4 < 32 := by decide

lemma decodemap_getD : ∀ n : ℕ, n < 32 → decodemap (base32.getD n ' ') = some n := by decide

lemma decodeChar_spec_true (b0 b1 b2 b3 b4 : Bool) (alo ahi olo ohi aerr oerr : ℚ) :
    bitWeights.foldl (decodeMaskStep (chOf b0 b1 b2 b3 b4))
        ⟨alo, ahi, olo, ohi, aerr, oerr, true⟩ =
      ⟨(decCharSt b0 b1 b2 b3 b4 true ⟨alo, ahi, olo, ohi⟩).lat_lo,
       (decCharSt b0 b1 b2 b3 b4 true ⟨alo, ahi, olo, ohi⟩).lat_hi,
       (decCharSt b0 b1 b2 b3 b4 true ⟨alo, ahi, olo, ohi⟩).lon_lo,
       (decCharSt b0 b1 b2 b3 b4 true ⟨alo, ahi, olo, ohi⟩).lon_hi,
       aerr / 2 / 2, oerr / 2 / 2 / 2, false⟩ := by
  cases b0 <;> cases b1 <;> cases b2 <;> cases b3 <;> cases b4 <;> rfl

lemma decodeChar_spec_false (b0 b1 b2 b3 b4 : Bool) (alo ahi olo ohi aerr oerr : ℚ) :
    bitWeights.foldl (decodeMaskStep (chOf b0 b1 b2 b3 b4))
        ⟨alo, ahi, olo, ohi, aerr, oerr, false⟩ =
      ⟨(decCharSt b0 b1 b2 b3 b4 false ⟨alo, ahi, olo, ohi⟩).lat_lo,
       (decCharSt b0 b1 b2 b3 b4 false ⟨alo, ahi, olo, ohi⟩).lat_hi,
       (decCharSt b0 b1 b2 b3 b4 false ⟨alo, ahi, olo, ohi⟩).lon_lo,
       (decCharSt b0 b1 b2 b3 b4 false ⟨alo, ahi, olo, ohi⟩).lon_hi,
       aerr / 2 / 2 / 2, oerr / 2 / 2, true⟩ := by
  cases b0 <;> cases b1 <;> cases b2 <;> cases b3 <;> cases b4 <;> rfl

/-- Number of bisection steps the latitude axis receives over `m` characters
starting at parity `e` (`true` = longitude first). -/
def latSteps : Bool → ℕ → ℕ
  | _, 0 => 0
  | true, m + 1 => 2 + latSteps false m
  | false, m + 1 => 3 + latSteps true m

/-- Number of bisection steps the longitude axis receives over `m`
characters starting at parity `e`. -/
def lonSteps : Bool → ℕ → ℕ
  | _, 0 => 0
  | true, m + 1 => 3 + lonSteps false m
  | false, m + 1 => 2 + lonSteps true m

lemma steps_closed : ∀ m, latSteps true m = 5 * m / 2 ∧ latSteps false m = (5 * m + 1) / 2 ∧
    lonSteps true m = (5 * m + 1) / 2 ∧ lonSteps false m = 5 * m / 2 := by
  intro m
  induction m with
  | zero => simp [latSteps, lonSteps]
  | succ m ih =>
    obtain ⟨h1, h2, h3, h4⟩ := ih
    refine ⟨?_, ?_, ?_, ?_⟩ <;> simp [latSteps, lonSteps, h1, h2, h3, h4] <;> omega

/-- Parity flag after `m` characters. -/
def parityAfter (e : Bool) (m : ℕ) : Bool := if m % 2 = 0 then e else !e

lemma EncSt.eta (s : EncSt) : (⟨s.lat_lo, s.lat_hi, s.lon_lo, s.lon_hi⟩ : EncSt) = s := rfl

lemma decCharSt_true (lat lon alo ahi olo ohi : ℚ) :
    decCharSt (bisectBit lon olo ohi) (bisectBit lat alo ahi)
        (bisectBit lon (bisectLo lon olo ohi) (bisectHi lon olo ohi))
        (bisectBit lat (bisectLo lat alo ahi) (bisectHi lat alo ahi))
        (bisectBit lon (bisectLo lon (bisectLo lon olo ohi) (bisectHi lon olo ohi))
          (bisectHi lon (bisectLo lon olo ohi) (bisectHi lon olo ohi))) true
        ⟨alo, ahi, olo, ohi⟩ =
      ⟨bisectLo lat (bisectLo lat alo ahi) (bisectHi lat alo ahi),
       bisectHi lat (bisectLo lat alo ahi) (bisectHi lat alo ahi),
       bisectLo lon (bisectLo lon (bisectLo lon olo ohi) (bisectHi lon olo ohi))
         (bisectHi lon (bisectLo lon olo ohi) (bisectHi lon olo ohi)),
       bisectHi lon (bisectLo lon (bisectLo lon olo ohi) (bisectHi lon olo ohi))
         (bisectHi lon (bisectLo lon olo ohi) (bisectHi lon olo ohi))⟩ := by
  simp [decCharSt, encUpd, bitUpdLo_bisect, bitUpdHi_bisect]

lemma decCharSt_false (lat lon alo ahi olo ohi : ℚ) :
    decCharSt (bisectBit lat alo ahi) (bisectBit lon olo ohi)
        (bisectBit lat (bisectLo lat alo ahi) (bisectHi lat alo ahi))
        (bisectBit lon (bisectLo lon olo ohi) (bisectHi lon olo ohi))
        (bisectBit lat (bisectLo lat (bisectLo lat alo ahi) (bisectHi lat alo ahi))
          (bisectHi lat (bisectLo lat alo ahi) (bisectHi lat alo ahi))) false
        ⟨alo, ahi, olo, ohi⟩ =
      ⟨bisectLo lat (bisectLo lat (bisectLo lat alo ahi) (bisectHi lat alo ahi))
         (bisectHi lat (bisectLo lat alo ahi) (bisectHi lat alo ahi)),
       bisectHi lat (bisectLo lat (bisectLo lat alo ahi) (bisectHi lat alo ahi))
         (bisectHi lat (bisectLo lat alo ahi) (bisectHi lat alo ahi)),
       bisectLo lon (bisectLo lon olo ohi) (bisectHi lon olo ohi),
       bisectHi lon (bisectLo lon olo ohi) (bisectHi lon olo ohi)⟩ := by
  simp [decCharSt, encUpd, bitUpdLo_bisect, bitUpdHi_bisect]

lemma parityAfter_false (m : ℕ) : parityAfter false m = parityAfter true (m + 1) := by
  by_cases h : m % 2 = 0
  · have h1 : (m + 1) % 2 ≠ 0 := by omega
    simp [parityAfter, h, h1]
  · have h1 : (m + 1) % 2 = 0 := by omega
    simp [parityAfter, h, h1]

lemma parityAfter_true (m : ℕ) : parityAfter true m = parityAfter false (m + 1) := by
  by_cases h : m % 2 = 0
  · have h1 : (m + 1) % 2 ≠ 0 := by omega
    simp [parityAfter, h, h1]
  · have h1 : (m + 1) % 2 = 0 := by omega
    simp [parityAfter, h, h1]

lemma decodeExactlyLoop_cons_some {c : Char} {cs : List Char} {st : DecodeSt} {cd : ℕ}
    (h : decodemap c = some cd) :
    decodeExactlyLoop (c :: cs) st =
      decodeExactlyLoop cs (bitWeights.foldl (decodeMaskStep cd) st) := by
  simp [decodeExactlyLoop, h]

lemma decodeLoop_encChars (lat lon : ℚ) :
    ∀ (m : ℕ) (e : Bool) (alo ahi olo ohi aerr oerr : ℚ),
      decodeExactlyLoop (encChars lat lon m e ⟨alo, ahi, olo, ohi⟩)
          ⟨alo, ahi, olo, ohi, aerr, oerr, e⟩ =
        some ⟨(encCharsSt lat lon m e ⟨alo, ahi, olo, ohi⟩).lat_lo,
              (encCharsSt lat lon m e ⟨alo, ahi, olo, ohi⟩).lat_hi,
              (encCharsSt lat lon m e ⟨alo, ahi, olo, ohi⟩).lon_lo,
              (encCharsSt lat lon m e ⟨alo, ahi, olo, ohi⟩).lon_hi,
              aerr / 2 ^ latSteps e m, oerr / 2 ^ lonSteps e m, parityAfter e m⟩ := by
  intro m
  induction m with
  | zero =>
    intro e alo ahi olo ohi aerr oerr
    simp [encChars, decodeExactlyLoop, encCharsSt, latSteps, lonSteps, parityAfter]
  | succ m ih =>
    intro e alo ahi olo ohi aerr oerr
    cases e with
    | true =>
      rw [show encChars lat lon (m + 1) true ⟨alo, ahi, olo, ohi⟩ =
            base32.getD (encChar lat lon true ⟨alo, ahi, olo, ohi⟩).1 ' ' ::
              encChars lat lon m false (encChar lat lon true ⟨alo, ahi, olo, ohi⟩).2 from rfl,
          show encCharsSt lat lon (m + 1) true ⟨alo, ahi, olo, ohi⟩ =
            encCharsSt lat lon m false (encChar lat lon true ⟨alo, ahi, olo, ohi⟩).2 from rfl,
          encChar_true]
      dsimp only
      rw [decodeExactlyLoop_cons_some (decodemap_getD _ (chOf_lt_32 _ _ _ _ _)),
        decodeChar_spec_true, decCharSt_true]
      dsimp only
      rw [ih]
      simp only [Option.some.injEq, DecodeSt.mk.injEq]
      refine ⟨trivial, trivial, trivial, trivial, ?_, ?_, parityAfter_false m⟩
      · rw [show latSteps true (m + 1) = 2 + latSteps false m from rfl, pow_add]
        ring
      · rw [show lonSteps true (m + 1) = 3 + lonSteps false m from rfl, pow_add]
        ring
    | false =>
      rw [show encChars lat lon (m + 1) false ⟨alo, ahi, olo, ohi⟩ =
            base32.getD (encChar lat lon false ⟨alo, ahi, olo, ohi⟩).1 ' ' ::
              encChars lat lon m true (encChar lat lon false ⟨alo, ahi, olo, ohi⟩).2 from rfl,
          show encCharsSt lat lon (m + 1) false ⟨alo, ahi, olo, ohi⟩ =
            encCharsSt lat lon m true (encChar lat lon false ⟨alo, ahi, olo, ohi⟩).2 from rfl,
          encChar_false]
      dsimp only
      rw [decodeExactlyLoop_cons_some (decodemap_getD _ (chOf_lt_32 _ _ _ _ _)),
        decodeChar_spec_false, decCharSt_false]
      dsimp only
      rw [ih]
      simp only [Option.some.injEq, DecodeSt.mk.injEq]
      refine ⟨trivial, trivial, trivial, trivial, ?_, ?_, parityAfter_true m⟩
      · rw [show latSteps false (m + 1) = 3 + latSteps true m from rfl, pow_add]
        ring
      · rw [show lonSteps false (m + 1) = 2 + lonSteps true m from rfl, pow_add]
        ring

/-- Pure one-axis bisection: the interval after `k` encode steps for value
`v` (tie `v = mid` goes to the upper half, as in `encode`). -/
def axisBisect (v : ℚ) : ℕ → ℚ → ℚ → ℚ × ℚ
  | 0, lo, hi => (lo, hi)
  | k + 1, lo, hi => axisBisect v k (bisectLo v lo hi) (bisectHi v lo hi)

lemma axisBisect_add (v : ℚ) : ∀ (k j : ℕ) (lo hi : ℚ),
    axisBisect v (k + j) lo hi =
      axisBisect v j (axisBisect v k lo hi).1 (axisBisect v k lo hi).2 := by
  intro k
  induction k with
  | zero => intro j lo hi; rw [Nat.zero_add]; rfl
  | succ k ih =>
    intro j lo hi
    rw [show k + 1 + j = (k + j) + 1 from by omega]
    show axisBisect v (k + j) (bisectLo v lo hi) (bisectHi v lo hi) = _
    rw [ih]
    rfl

lemma encCharsSt_axis (lat lon : ℚ) : ∀ (m : ℕ) (e : Bool) (alo ahi olo ohi : ℚ),
    encCharsSt lat lon m e ⟨alo, ahi, olo, ohi⟩ =
      ⟨(axisBisect lat (latSteps e m) alo ahi).1, (axisBisect lat (latSteps e m) alo ahi).2,
       (axisBisect lon (lonSteps e m) olo ohi).1, (axisBisect lon (lonSteps e m) olo ohi).2⟩ := by
  intro m
  induction m with
  | zero => intro e alo ahi olo ohi; cases e <;> rfl
  | succ m ih =>
    intro e alo ahi olo ohi
    cases e with
    | true =>
      rw [show encCharsSt lat lon (m + 1) true ⟨alo, ahi, olo, ohi⟩ =
            encCharsSt lat lon m false (encChar lat lon true ⟨alo, ahi, olo, ohi⟩).2 from rfl,
          encChar_true]
      dsimp only
      rw [ih]
      rw [show latSteps true (m + 1) = 2 + latSteps false m from rfl,
          show lonSteps true (m + 1) = 3 + lonSteps false m from rfl,
          axisBisect_add lat 2, axisBisect_add lon 3]
      rfl
    | false =>
      rw [show encCharsSt lat lon (m + 1) false ⟨alo, ahi, olo, ohi⟩ =
            encCharsSt lat lon m true (encChar lat lon false ⟨alo, ahi, olo, ohi⟩).2 from rfl,
          encChar_false]
      dsimp only
      rw [ih]
      rw [show latSteps false (m + 1) = 3 + latSteps true m from rfl,
          show lonSteps false (m + 1) = 2 + lonSteps true m from rfl,
          axisBisect_add lat 3, axisBisect_add lon 2]
      rfl

lemma axisBisect_nest (v : ℚ) : ∀ (k : ℕ) (lo hi : ℚ), lo ≤ hi →
    lo ≤ (axisBisect v k lo hi).1 ∧ (axisBisect v k lo hi).1 ≤ (axisBisect v k lo hi).2 ∧
      (axisBisect v k lo hi).2 ≤ hi := by
  intro k
  induction k with
  | zero => intro lo hi h; exact ⟨le_refl _, h, le_refl _⟩
  | succ k ih =>
    intro lo hi h
    simp only [axisBisect]
    by_cases hc : v ≥ (lo + hi) / 2
    · simp only [bisectLo, bisectHi, if_pos hc]
      obtain ⟨h1, h2, h3⟩ := ih ((lo + hi) / 2) hi (by linarith)
      exact ⟨by linarith, h2, h3⟩
    · simp only [bisectLo, bisectHi, if_neg hc]
      obtain ⟨h1, h2, h3⟩ := ih lo ((lo + hi) / 2) (by linarith)
      exact ⟨h1, h2, by linarith⟩

lemma axisBisect_width (v : ℚ) : ∀ (k : ℕ) (lo hi : ℚ),
    (axisBisect v k lo hi).2 - (axisBisect v k lo hi).1 = (hi - lo) / 2 ^ k := by
  intro k
  induction k with
  | zero => intro lo hi; simp [axisBisect]
  | succ k ih =>
    intro lo hi
    simp only [axisBisect]
    by_cases hc : v ≥ (lo + hi) / 2
    · simp only [bisectLo, bisectHi, if_pos hc]
      rw [ih, pow_succ]
      ring
    · simp only [bisectLo, bisectHi, if_neg hc]
      rw [ih, pow_succ]
      ring

lemma axisBisect_mem (v : ℚ) : ∀ (k : ℕ) (lo hi : ℚ), lo ≤ v → v ≤ hi →
    (axisBisect v k lo hi).1 ≤ v ∧ v ≤ (axisBisect v k lo hi).2 ∧
      (v < (axisBisect v k lo hi).2 ∨ (axisBisect v k lo hi).2 = hi) := by
  intro k
  induction k with
  | zero => intro lo hi h1 h2; exact ⟨h1, h2, Or.inr rfl⟩
  | succ k ih =>
    intro lo hi h1 h2
    simp only [axisBisect]
    by_cases hc : v ≥ (lo + hi) / 2
    · simp only [bisectLo, bisectHi, if_pos hc]
      exact ih ((lo + hi) / 2) hi hc h2
    · have hlt : v < (lo + hi) / 2 := lt_of_not_ge hc
      simp only [bisectLo, bisectHi, if_neg hc]
      obtain ⟨i1, i2, i3⟩ := ih lo ((lo + hi) / 2) h1 (le_of_lt hlt)
      refine ⟨i1, i2, Or.inl ?_⟩
      rcases i3 with h | h
      · exact h
      · rw [h]; exact hlt

lemma axisBisect_cell (v w : ℚ) : ∀ (k : ℕ) (lo hi : ℚ), lo < hi → lo ≤ v → v ≤ hi →
    (axisBisect v k lo hi).1 ≤ w →
    (w < (axisBisect v k lo hi).2 ∨ ((axisBisect v k lo hi).2 = hi ∧ w ≤ hi)) →
    axisBisect w k lo hi = axisBisect v k lo hi := by
  intro k
  induction k with
  | zero => intro lo hi _ _ _ _ _; rfl
  | succ k ih =>
    intro lo hi hlh hv1 hv2 hw1 hw2
    simp only [axisBisect] at hw1 hw2 ⊢
    by_cases hc : v ≥ (lo + hi) / 2
    · have hmidhi : (lo + hi) / 2 < hi := by linarith
      simp only [bisectLo, bisectHi, if_pos hc] at hw1 hw2 ⊢
      obtain ⟨n1, n2, n3⟩ := axisBisect_nest v k ((lo + hi) / 2) hi (le_of_lt hmidhi)
      have hwmid : w ≥ (lo + hi) / 2 := le_trans n1 hw1
      simp only [if_pos hwmid]
      exact ih ((lo + hi) / 2) hi hmidhi hc hv2 hw1 hw2
    · have hlt : v < (lo + hi) / 2 := lt_of_not_ge hc
      have hlomid : lo < (lo + hi) / 2 := by linarith
      simp only [bisectLo, bisectHi, if_neg hc] at hw1 hw2 ⊢
      obtain ⟨n1, n2, n3⟩ := axisBisect_nest v k lo ((lo + hi) / 2) (le_of_lt hlomid)
      have hwmid : w < (lo + hi) / 2 := by
        rcases hw2 with h | h
        · exact lt_of_lt_of_le h n3
        · exact absurd h.1 (by intro he; rw [he] at n3; linarith)
      have hwmid' : ¬ w ≥ (lo + hi) / 2 := not_le_of_lt hwmid
      simp only [if_neg hwmid']
      refine ih lo ((lo + hi) / 2) hlomid hv1 (le_of_lt hlt) hw1 ?_
      rcases hw2 with h | h
      · exact Or.inl h
      · exact absurd h.1 (by intro he; rw [he] at n3; linarith)

lemma pyRHE_near (y : ℚ) : |(pyRoundHalfEven y : ℚ) - y| ≤ 1 / 2 := by
  have hf1 : (⌊y⌋ : ℚ) ≤ y := Int.floor_le y
  have hf2 : y < ⌊y⌋ + 1 := Int.lt_floor_add_one y
  unfold pyRoundHalfEven
  split_ifs with h1 h2 h3 <;> rw [abs_le] <;> constructor <;> push_cast <;> linarith

lemma pyRHE_eq_of_near (y : ℚ) (n : ℤ) (h : |y - (n : ℚ)| < 1 / 2) : pyRoundHalfEven y = n := by
  rw [abs_lt] at h
  obtain ⟨h1, h2⟩ := h
  by_cases hyn : (n : ℚ) ≤ y
  · have hfl : ⌊y⌋ = n := by
      rw [Int.floor_eq_iff]
      constructor
      · exact_mod_cast hyn
      · push_cast; linarith
    unfold pyRoundHalfEven
    rw [hfl]
    have : y - (n : ℚ) < 1 / 2 := by linarith
    rw [if_pos this]
  · push_neg at hyn
    have hfl : ⌊y⌋ = n - 1 := by
      rw [Int.floor_eq_iff]
      constructor
      · push_cast; linarith
      · push_cast; linarith
    unfold pyRoundHalfEven
    rw [hfl]
    have hgt : 1 / 2 < y - ((n : ℚ) - 1) := by linarith
    have hnot : ¬ y - (((n : ℤ) - 1 : ℤ) : ℚ) < 1 / 2 := by push_cast; push_cast at hgt; linarith
    rw [if_neg hnot, if_pos (by push_cast; push_cast at hgt; linarith)]
    omega

lemma pyRHE_le (y : ℚ) (n : ℤ) (h : y ≤ (n : ℚ)) : pyRoundHalfEven y ≤ n := by
  have hfn : ⌊y⌋ ≤ n := by
    have := Int.floor_mono h
    simpa using this
  have hf1 : (⌊y⌋ : ℚ) ≤ y := Int.floor_le y
  unfold pyRoundHalfEven
  split_ifs with h1 h2 h3
  · exact hfn
  · have : (⌊y⌋ : ℚ) < y := by linarith
    have : (⌊y⌋ : ℚ) < (n : ℚ) := by linarith
    have : ⌊y⌋ < n := by exact_mod_cast this
    omega
  · exact hfn
  · have : (⌊y⌋ : ℚ) < y := by linarith
    have : (⌊y⌋ : ℚ) < (n : ℚ) := by linarith
    have : ⌊y⌋ < n := by exact_mod_cast this
    omega

lemma pyRHE_ge (y : ℚ) (n : ℤ) (h : (n : ℚ) ≤ y) : n ≤ pyRoundHalfEven y := by
  have hfn : n ≤ ⌊y⌋ := Int.le_floor.mpr h
  unfold pyRoundHalfEven
  split_ifs <;> omega

lemma roundDec_near (d : ℕ) (x : ℚ) : |roundDec d x - x| ≤ 1 / (2 * 10 ^ d) := by
  have hp : (0 : ℚ) < 10 ^ d := by positivity
  have h := pyRHE_near (x * 10 ^ d)
  unfold roundDec
  rw [show (pyRoundHalfEven (x * 10 ^ d) : ℚ) / 10 ^ d - x =
      ((pyRoundHalfEven (x * 10 ^ d) : ℚ) - x * 10 ^ d) / 10 ^ d from by field_simp; ring,
    abs_div, abs_of_pos hp, div_le_div_iff hp (by positivity)]
  calc |(pyRoundHalfEven (x * 10 ^ d) : ℚ) - x * 10 ^ d| * (2 * 10 ^ d)
      ≤ (1 / 2) * (2 * 10 ^ d) := by
        apply mul_le_mul_of_nonneg_right h (by positivity)
    _ = 1 * 10 ^ d := by ring

lemma roundDec_eq_of_near (d : ℕ) (x : ℚ) (n : ℤ)
    (h : |x - (n : ℚ) / 10 ^ d| < 1 / (2 * 10 ^ d)) : roundDec d x = (n : ℚ) / 10 ^ d := by
  have hp : (0 : ℚ) < 10 ^ d := by positivity
  have h2 : |x * 10 ^ d - (n : ℚ)| < 1 / 2 := by
    have key : x * 10 ^ d - (n : ℚ) = (x - (n : ℚ) / 10 ^ d) * 10 ^ d := by field_simp
    rw [key, abs_mul, abs_of_pos hp]
    calc |x - (n : ℚ) / 10 ^ d| * 10 ^ d < 1 / (2 * 10 ^ d) * 10 ^ d :=
          mul_lt_mul_of_pos_right h hp
      _ = 1 / 2 := by field_simp; ring
  unfold roundDec
  rw [pyRHE_eq_of_near _ n h2]

lemma roundDec_le (d : ℕ) (x : ℚ) (n : ℤ) (h : x ≤ (n : ℚ) / 10 ^ d) :
    roundDec d x ≤ (n : ℚ) / 10 ^ d := by
  have hp : (0 : ℚ) < 10 ^ d := by positivity
  have h1 : x * 10 ^ d ≤ (n : ℚ) := by
    rw [← le_div_iff hp]; exact h
  unfold roundDec
  rw [div_le_div_iff hp hp]
  have := pyRHE_le (x * 10 ^ d) n h1
  have : (pyRoundHalfEven (x * 10 ^ d) : ℚ) ≤ (n : ℚ) := by exact_mod_cast this
  nlinarith

lemma roundDec_ge (d : ℕ) (x : ℚ) (n : ℤ) (h : (n : ℚ) / 10 ^ d ≤ x) :
    (n : ℚ) / 10 ^ d ≤ roundDec d x := by
  have hp : (0 : ℚ) < 10 ^ d := by positivity
  have h1 : (n : ℚ) ≤ x * 10 ^ d := by
    rw [← div_le_iff hp]; exact h
  unfold roundDec
  rw [div_le_div_iff hp hp]
  have := pyRHE_ge (x * 10 ^ d) n h1
  have : (n : ℚ) ≤ (pyRoundHalfEven (x * 10 ^ d) : ℚ) := by exact_mod_cast this
  nlinarith

lemma decode_exactly_encode (lat lon : ℚ) (p : ℕ) :
    decode_exactly (encode lat lon p) =
      some ⟨((axisBisect lat (5 * p / 2) (-90) 90).1 + (axisBisect lat (5 * p / 2) (-90) 90).2) / 2,
            ((axisBisect lon ((5 * p + 1) / 2) (-180) 180).1 +
              (axisBisect lon ((5 * p + 1) / 2) (-180) 180).2) / 2,
            90 / 2 ^ (5 * p / 2), 180 / 2 ^ ((5 * p + 1) / 2)⟩ := by
  obtain ⟨h1, _, h3, _⟩ := steps_closed p
  rw [encode_eq_encChars]
  unfold decode_exactly
  rw [decodeLoop_encChars, encCharsSt_axis, h1, h3]
  rfl

/-- Round-trip stability of one axis: rounding the midpoint of the bisection
cell to `d` decimals, re-bisecting the rounded point and rounding the new
midpoint gives back the same value, provided the decimal half-step never
equals the cell half-width. -/
lemma axis_roundtrip (v lo hi : ℚ) (k d : ℕ) (a b : ℤ) (M P : ℚ)
    (hlo : lo = (a : ℚ) / 10 ^ d) (hhi : hi = (b : ℚ) / 10 ^ d)
    (hlh : lo < hi) (hv1 : lo ≤ v) (hv2 : v ≤ hi)
    (hreg : (hi - lo) / 2 ^ (k + 1) ≠ 1 / (2 * 10 ^ d))
    (hM : M = ((axisBisect v k lo hi).1 + (axisBisect v k lo hi).2) / 2)
    (hP : P = roundDec d M) :
    roundDec d (((axisBisect P k lo hi).1 + (axisBisect P k lo hi).2) / 2) = P := by
  have hp : (0 : ℚ) < 10 ^ d := by positivity
  obtain ⟨hm1, hm2, hm3⟩ := axisBisect_mem v k lo hi hv1 hv2
  obtain ⟨hn1, hn2, hn3⟩ := axisBisect_nest v k lo hi (le_of_lt hlh)
  have hw : (axisBisect v k lo hi).2 - (axisBisect v k lo hi).1 = (hi - lo) / 2 ^ k :=
    axisBisect_width v k lo hi
  have hErr2 : (axisBisect v k lo hi).2 - (axisBisect v k lo hi).1 =
      2 * ((hi - lo) / 2 ^ (k + 1)) := by
    rw [hw, pow_succ]
    ring
  have hMlo : M - (hi - lo) / 2 ^ (k + 1) = (axisBisect v k lo hi).1 := by
    rw [hM]
    linarith
  have hMhi : M + (hi - lo) / 2 ^ (k + 1) = (axisBisect v k lo hi).2 := by
    rw [hM]
    linarith
  have herrpos : 0 < (hi - lo) / 2 ^ (k + 1) := by
    apply div_pos (by linarith) (by positivity)
  by_cases hcase : (hi - lo) / 2 ^ (k + 1) < 1 / (2 * 10 ^ d)
  · -- the cell is smaller than half a decimal step: the rounded midpoint P
    -- is the unique grid point within half a step of the new cell midpoint
    have hPlo : lo ≤ P := by
      rw [hP, hlo]
      apply roundDec_ge
      rw [← hlo]
      calc lo ≤ (axisBisect v k lo hi).1 := hn1
        _ ≤ M := by rw [hM]; linarith
    have hPhi : P ≤ hi := by
      rw [hP, hhi]
      apply roundDec_le
      rw [← hhi]
      calc M ≤ (axisBisect v k lo hi).2 := by rw [hM]; linarith
        _ ≤ hi := hn3
    obtain ⟨q1, q2, q3⟩ := axisBisect_mem P k lo hi hPlo hPhi
    have hw2 : (axisBisect P k lo hi).2 - (axisBisect P k lo hi).1 =
        2 * ((hi - lo) / 2 ^ (k + 1)) := by
      rw [axisBisect_width P k lo hi, pow_succ]
      ring
    have hnear : |((axisBisect P k lo hi).1 + (axisBisect P k lo hi).2) / 2 -
        (pyRoundHalfEven (M * 10 ^ d) : ℚ) / 10 ^ d| < 1 / (2 * 10 ^ d) := by
      have hPval : P = (pyRoundHalfEven (M * 10 ^ d) : ℚ) / 10 ^ d := hP
      rw [← hPval]
      have habs : |((axisBisect P k lo hi).1 + (axisBisect P k lo hi).2) / 2 - P| ≤
          (hi - lo) / 2 ^ (k + 1) := by
        rw [abs_le]
        constructor <;> linarith
      exact lt_of_le_of_lt habs hcase
    have := roundDec_eq_of_near d
      (((axisBisect P k lo hi).1 + (axisBisect P k lo hi).2) / 2)
      (pyRoundHalfEven (M * 10 ^ d)) hnear
    rw [this, hP]
    rfl
  · -- the cell is wider than half a decimal step: the rounded midpoint stays
    -- strictly inside the same cell, so re-bisecting it changes nothing
    have hcase2 : 1 / (2 * 10 ^ d) < (hi - lo) / 2 ^ (k + 1) :=
      lt_of_le_of_ne (not_lt.mp hcase) (Ne.symm hreg)
    have hPnear : |P - M| ≤ 1 / (2 * 10 ^ d) := by
      rw [hP]
      exact roundDec_near d M
    obtain ⟨hPn1, hPn2⟩ := abs_le.mp hPnear
    have hlo1P : (axisBisect v k lo hi).1 ≤ P := by linarith
    have hPhi1 : P < (axisBisect v k lo hi).2 := by linarith
    have hcell := axisBisect_cell v P k lo hi hlh hv1 hv2 hlo1P (Or.inl hPhi1)
    rw [hcell, ← hM]
    exact hP.symm

lemma grid_neg90 (d : ℕ) : (-90 : ℚ) = ((-(90 * 10 ^ d) : ℤ) : ℚ) / 10 ^ d := by
  have hp : (0 : ℚ) < 10 ^ d := by positivity
  push_cast
  field_simp

lemma grid_pos90 (d : ℕ) : (90 : ℚ) = (((90 * 10 ^ d : ℤ)) : ℚ) / 10 ^ d := by
  have hp : (0 : ℚ) < 10 ^ d := by positivity
  push_cast
  field_simp

lemma grid_neg180 (d : ℕ) : (-180 : ℚ) = ((-(180 * 10 ^ d) : ℤ) : ℚ) / 10 ^ d := by
  have hp : (0 : ℚ) < 10 ^ d := by positivity
  push_cast
  field_simp

lemma grid_pos180 (d : ℕ) : (180 : ℚ) = (((180 * 10 ^ d : ℤ)) : ℚ) / 10 ^ d := by
  have hp : (0 : ℚ) < 10 ^ d := by positivity
  push_cast
  field_simp

lemma roundtrip_master (lat lon : ℚ) (p dlat dlon : ℕ)
    (hv1 : -90 ≤ lat) (hv2 : lat ≤ 90) (hw1 : -180 ≤ lon) (hw2 : lon ≤ 180)
    (hdlat : decimalsOf (90 / 2 ^ (5 * p / 2)) = dlat)
    (hdlon : decimalsOf (180 / 2 ^ ((5 * p + 1) / 2)) = dlon)
    (hreglat : ((90 : ℚ) - -90) / 2 ^ (5 * p / 2 + 1) ≠ 1 / (2 * 10 ^ dlat))
    (hreglon : ((180 : ℚ) - -180) / 2 ^ ((5 * p + 1) / 2 + 1) ≠ 1 / (2 * 10 ^ dlon)) :
    ∃ r1 : LatLong, decode (encode lat lon p) = some r1 ∧
      decode (encode r1.latitude r1.longitude p) = some r1 := by
  refine ⟨⟨roundDec dlat (((axisBisect lat (5 * p / 2) (-90) 90).1 +
      (axisBisect lat (5 * p / 2) (-90) 90).2) / 2),
    roundDec dlon (((axisBisect lon ((5 * p + 1) / 2) (-180) 180).1 +
      (axisBisect lon ((5 * p + 1) / 2) (-180) 180).2) / 2)⟩, ?_, ?_⟩
  · unfold decode
    rw [decode_exactly_encode]
    simp only [Option.map_some']
    rw [hdlat, hdlon]
  · unfold decode
    rw [decode_exactly_encode]
    simp only [Option.map_some']
    rw [hdlat, hdlon]
    have hlat := axis_roundtrip lat (-90) 90 (5 * p / 2) dlat
      (-(90 * 10 ^ dlat)) (90 * 10 ^ dlat) _ _
      (grid_neg90 dlat) (grid_pos90 dlat) (by norm_num) hv1 hv2 hreglat rfl rfl
    have hlon := axis_roundtrip lon (-180) 180 ((5 * p + 1) / 2) dlon
      (-(180 * 10 ^ dlon)) (180 * 10 ^ dlon) _ _
      (grid_neg180 dlon) (grid_pos180 dlon) (by norm_num) hw1 hw2 hreglon rfl rfl
    rw [hlat, hlon]

set_option maxHeartbeats 4000000 in
/-- C1: for every latitude in [-90, 90], longitude in [-180, 180] and
precision in [1, 12], decoding the encoded geohash, re-encoding the decoded
coordinate at the same precision and decoding again yields latitude and
longitude equal to the first decode's result within 1e-10 (the two decodes
are in fact exactly equal). -/
theorem c1_roundtrip_stability (lat lon : ℚ) (p : ℕ)
    (hlat1 : -90 ≤ lat) (hlat2 : lat ≤ 90) (hlon1 : -180 ≤ lon) (hlon2 : lon ≤ 180)
    (hp1 : 1 ≤ p) (hp2 : p ≤ 12) :
    ∃ r1 r2 : LatLong,
      decode (encode lat lon p) = some r1 ∧
      decode (encode r1.latitude r1.longitude p) = some r2 ∧
      |r2.latitude - r1.latitude| ≤ 1 / 10 ^ 10 ∧
      |r2.longitude - r1.longitude| ≤ 1 / 10 ^ 10 := by
  have key : ∃ r1 : LatLong, decode (encode lat lon p) = some r1 ∧
      decode (encode r1.latitude r1.longitude p) = some r1 := by
    interval_cases p
    · exact roundtrip_master lat lon 1 0 0 hlat1 hlat2 hlon1 hlon2
        (by with_unfolding_all rfl)
        (by with_unfolding_all rfl)
        (by norm_num) (by norm_num)
    · exact roundtrip_master lat lon 2 0 0 hlat1 hlat2 hlon1 hlon2
        (by with_unfolding_all rfl)
        (by with_unfolding_all rfl)
        (by norm_num) (by norm_num)
    · exact roundtrip_master lat lon 3 0 0 hlat1 hlat2 hlon1 hlon2
        (by with_unfolding_all rfl)
        (by with_unfolding_all rfl)
        (by norm_num) (by norm_num)
    · exact roundtrip_master lat lon 4 0 0 hlat1 hlat2 hlon1 hlon2
        (by with_unfolding_all rfl)
        (by with_unfolding_all rfl)
        (by norm_num) (by norm_num)
    · exact roundtrip_master lat lon 5 1 1 hlat1 hlat2 hlon1 hlon2
        (by with_unfolding_all rfl)
        (by with_unfolding_all rfl)
        (by norm_num) (by norm_num)
    · exact roundtrip_master lat lon 6 2 1 hlat1 hlat2 hlon1 hlon2
        (by with_unfolding_all rfl)
        (by with_unfolding_all rfl)
        (by norm_num) (by norm_num)
    · exact roundtrip_master lat lon 7 2 2 hlat1 hlat2 hlon1 hlon2
        (by with_unfolding_all rfl)
        (by with_unfolding_all rfl)
        (by norm_num) (by norm_num)
    · exact roundtrip_master lat lon 8 3 3 hlat1 hlat2 hlon1 hlon2
        (by with_unfolding_all rfl)
        (by with_unfolding_all rfl)
        (by norm_num) (by norm_num)
    · exact roundtrip_master lat lon 9 4 4 hlat1 hlat2 hlon1 hlon2
        (by with_unfolding_all rfl)
        (by with_unfolding_all rfl)
        (by norm_num) (by norm_num)
    · exact roundtrip_master lat lon 10 5 4 hlat1 hlat2 hlon1 hlon2
        (by with_unfolding_all rfl)
        (by with_unfolding_all rfl)
        (by norm_num) (by norm_num)
    · exact roundtrip_master lat lon 11 5 5 hlat1 hlat2 hlon1 hlon2
        (by with_unfolding_all rfl)
        (by with_unfolding_all rfl)
        (by norm_num) (by norm_num)
    · exact roundtrip_master lat lon 12 6 6 hlat1 hlat2 hlon1 hlon2
        (by with_unfolding_all rfl)
        (by with_unfolding_all rfl)
        (by norm_num) (by norm_num)
  obtain ⟨r1, h1, h2⟩ := key
  exact ⟨r1, r1, h1, h2, by simp, by simp⟩

/-- Witness for C1 at latitude 42, longitude 7, precision 2. -/
theorem c1_roundtrip_stability_witness :
    ((-90 : ℚ) ≤ 42 ∧ (42 : ℚ) ≤ 90 ∧ (-180 : ℚ) ≤ 7 ∧ (7 : ℚ) ≤ 180 ∧
      1 ≤ 2 ∧ 2 ≤ 12) ∧
    (∃ r1 r2 : LatLong,
      decode (encode 42 7 2) = some r1 ∧
      decode (encode r1.latitude r1.longitude 2) = some r2 ∧
      |r2.latitude - r1.latitude| ≤ 1 / 10 ^ 10 ∧
      |r2.longitude - r1.longitude| ≤ 1 / 10 ^ 10) :=
  ⟨by norm_num,
   c1_roundtrip_stability 42 7 2 (by norm_num) (by norm_num) (by norm_num) (by norm_num)
     (by norm_num) (by norm_num)⟩

lemma encodeStrictlyLoop_eq_encodeLoop (lat lon : ℚ) (p : ℕ) :
    ∀ (fuel : ℕ) (alo ahi olo ohi : ℚ) (gh : List Char) (bit ch : ℕ) (e : Bool),
      encodeStrictlyLoop lat lon p fuel alo ahi olo ohi gh bit ch e =
        encodeLoop lat lon p fuel alo ahi olo ohi gh bit ch e := by
  intro fuel
  induction fuel with
  | zero => intros; rfl
  | succ fuel ih =>
    intro alo ahi olo ohi gh bit ch e
    simp only [encodeStrictlyLoop, encodeLoop, ih]

/-- C4: `encode` and `encode_strictly` are the same function (the source
bodies are literal copies, both with the `>=` midpoint comparison), and both
return `"ebh00"` for `(0.0, -5.6)` at precision 5. -/
theorem c4_encode_strictly_same (lat lon : ℚ) (p : ℕ)
    (hlat1 : -90 ≤ lat) (hlat2 : lat ≤ 90) (hlon1 : -180 ≤ lon) (hlon2 : lon ≤ 180)
    (hp1 : 1 ≤ p) (hp2 : p ≤ 12) :
    encode lat lon p = encode_strictly lat lon p ∧
      encode 0 (-5.6) 5 = "ebh00".toList ∧
      encode_strictly 0 (-5.6) 5 = "ebh00".toList := by
  refine ⟨?_, by with_unfolding_all rfl, by with_unfolding_all rfl⟩
  unfold encode encode_strictly
  rw [encodeStrictlyLoop_eq_encodeLoop]

/-- Witness for C4 at latitude 42, longitude 7, precision 2. -/
theorem c4_encode_strictly_same_witness :
    ((-90 : ℚ) ≤ 42 ∧ (42 : ℚ) ≤ 90 ∧ (-180 : ℚ) ≤ 7 ∧ (7 : ℚ) ≤ 180 ∧
      1 ≤ 2 ∧ 2 ≤ 12) ∧
    (encode 42 7 2 = encode_strictly 42 7 2 ∧
      encode 0 (-5.6) 5 = "ebh00".toList ∧
      encode_strictly 0 (-5.6) 5 = "ebh00".toList) :=
  ⟨by norm_num,
   c4_encode_strictly_same 42 7 2 (by norm_num) (by norm_num) (by norm_num) (by norm_num)
     (by norm_num) (by norm_num)⟩

lemma encChars_length (lat lon : ℚ) : ∀ (m : ℕ) (e : Bool) (s : EncSt),
    (encChars lat lon m e s).length = m := by
  intro m
  induction m with
  | zero => intros; rfl
  | succ m ih =>
    intro e s
    simp only [encChars, List.length_cons, ih]

lemma base32_getD_mem : ∀ n : ℕ, n < 32 → base32.getD n ' ' ∈ base32 := by decide

lemma encChars_mem (lat lon : ℚ) : ∀ (m : ℕ) (e : Bool) (s : EncSt) (c : Char),
    c ∈ encChars lat lon m e s → c ∈ base32 := by
  intro m
  induction m with
  | zero => intro e s c h; simp [encChars] at h
  | succ m ih =>
    intro e s c h
    simp only [encChars, List.mem_cons] at h
    rcases h with h | h
    · rw [h]
      exact base32_getD_mem _ (by
        rcases hc : encCharBits lat lon e s with ⟨b0, b1, b2, b3, b4⟩
        simp only [encChar, hc]
        exact chOf_lt_32 b0 b1 b2 b3 b4)
    · exact ih _ _ _ h

/-- C3: for every latitude in [-90, 90], longitude in [-180, 180] and
precision in [1, 12], the geohash returned by `encode` has length exactly
`precision` and all of its characters belong to the 32-symbol alphabet. -/
theorem c3_encode_length_alphabet (lat lon : ℚ) (p : ℕ)
    (hlat1 : -90 ≤ lat) (hlat2 : lat ≤ 90) (hlon1 : -180 ≤ lon) (hlon2 : lon ≤ 180)
    (hp1 : 1 ≤ p) (hp2 : p ≤ 12) :
    (encode lat lon p).length = p ∧ ∀ c ∈ encode lat lon p, c ∈ base32 := by
  rw [encode_eq_encChars]
  exact ⟨encChars_length lat lon p true _, fun c hc => encChars_mem lat lon p true _ c hc⟩

/-- Witness for C3 at latitude 42, longitude 7, precision 2. -/
theorem c3_encode_length_alphabet_witness :
    ((-90 : ℚ) ≤ 42 ∧ (42 : ℚ) ≤ 90 ∧ (-180 : ℚ) ≤ 7 ∧ (7 : ℚ) ≤ 180 ∧
      1 ≤ 2 ∧ 2 ≤ 12) ∧
    ((encode 42 7 2).length = 2 ∧ ∀ c ∈ encode 42 7 2, c ∈ base32) :=
  ⟨by norm_num,
   c3_encode_length_alphabet 42 7 2 (by norm_num) (by norm_num) (by norm_num) (by norm_num)
     (by norm_num) (by norm_num)⟩

lemma dChar_fields_true (cd : ℕ) (alo ahi olo ohi aerr oerr : ℚ) :
    (bitWeights.foldl (decodeMaskStep cd) ⟨alo, ahi, olo, ohi, aerr, oerr, true⟩).lat_err =
        aerr / 2 / 2 ∧
      (bitWeights.foldl (decodeMaskStep cd) ⟨alo, ahi, olo, ohi, aerr, oerr, true⟩).lon_err =
        oerr / 2 / 2 / 2 ∧
      (bitWeights.foldl (decodeMaskStep cd) ⟨alo, ahi, olo, ohi, aerr, oerr, true⟩).is_even =
        false := by
  simp [bitWeights, decodeMaskStep]

lemma dChar_fields_false (cd : ℕ) (alo ahi olo ohi aerr oerr : ℚ) :
    (bitWeights.foldl (decodeMaskStep cd) ⟨alo, ahi, olo, ohi, aerr, oerr, false⟩).lat_err =
        aerr / 2 / 2 / 2 ∧
      (bitWeights.foldl (decodeMaskStep cd) ⟨alo, ahi, olo, ohi, aerr, oerr, false⟩).lon_err =
        oerr / 2 / 2 ∧
      (bitWeights.foldl (decodeMaskStep cd) ⟨alo, ahi, olo, ohi, aerr, oerr, false⟩).is_even =
        true := by
  simp [bitWeights, decodeMaskStep]

lemma decodemap_isSome_of_mem {c : Char} (h : c ∈ base32) : ∃ cd, decodemap c = some cd := by
  fin_cases h <;> exact ⟨_, rfl⟩

lemma decodeLoop_err : ∀ (cs : List Char) (st : DecodeSt), (∀ c ∈ cs, c ∈ base32) →
    ∃ st', decodeExactlyLoop cs st = some st' ∧
      st'.lat_err = st.lat_err / 2 ^ latSteps st.is_even cs.length ∧
      st'.lon_err = st.lon_err / 2 ^ lonSteps st.is_even cs.length := by
  intro cs
  induction cs with
  | nil =>
    intro st _
    exact ⟨st, rfl, by simp [latSteps], by simp [lonSteps]⟩
  | cons c cs ih =>
    intro st hval
    obtain ⟨cd, hcd⟩ := decodemap_isSome_of_mem (hval c (List.mem_cons_self c cs))
    rw [decodeExactlyLoop_cons_some hcd]
    obtain ⟨st', h1, h2, h3⟩ :=
      ih (bitWeights.foldl (decodeMaskStep cd) st) (fun x hx => hval x (List.mem_cons_of_mem c hx))
    refine ⟨st', h1, ?_, ?_⟩
    · rw [h2]
      rcases hst : st.is_even with hf | ht
      · obtain ⟨e1, e2, e3⟩ := dChar_fields_false cd st.lat_lo st.lat_hi st.lon_lo st.lon_hi
          st.lat_err st.lon_err
        rw [show st = ⟨st.lat_lo, st.lat_hi, st.lon_lo, st.lon_hi, st.lat_err, st.lon_err,
            st.is_even⟩ from rfl, hst] at *
        rw [e1, e3, List.length_cons, show latSteps false (cs.length + 1) = 3 + latSteps true cs.length from rfl,
          pow_add]
        ring
      · obtain ⟨e1, e2, e3⟩ := dChar_fields_true cd st.lat_lo st.lat_hi st.lon_lo st.lon_hi
          st.lat_err st.lon_err
        rw [show st = ⟨st.lat_lo, st.lat_hi, st.lon_lo, st.lon_hi, st.lat_err, st.lon_err,
            st.is_even⟩ from rfl, hst] at *
        rw [e1, e3, List.length_cons, show latSteps true (cs.length + 1) = 2 + latSteps false cs.length from rfl,
          pow_add]
        ring
    · rw [h3]
      rcases hst : st.is_even with hf | ht
      · obtain ⟨e1, e2, e3⟩ := dChar_fields_false cd st.lat_lo st.lat_hi st.lon_lo st.lon_hi
          st.lat_err st.lon_err
        rw [show st = ⟨st.lat_lo, st.lat_hi, st.lon_lo, st.lon_hi, st.lat_err, st.lon_err,
            st.is_even⟩ from rfl, hst] at *
        rw [e2, e3, List.length_cons, show lonSteps false (cs.length + 1) = 2 + lonSteps true cs.length from rfl,
          pow_add]
        ring
      · obtain ⟨e1, e2, e3⟩ := dChar_fields_true cd st.lat_lo st.lat_hi st.lon_lo st.lon_hi
          st.lat_err st.lon_err
        rw [show st = ⟨st.lat_lo, st.lat_hi, st.lon_lo, st.lon_hi, st.lat_err, st.lon_err,
            st.is_even⟩ from rfl, hst] at *
        rw [e2, e3, List.length_cons, show lonSteps true (cs.length + 1) = 3 + lonSteps false cs.length from rfl,
          pow_add]
        ring

/-- C2: for every nonempty geohash over the 32-symbol alphabet of length
`n`, `decode_exactly` succeeds and returns `latitude_error = 90 / 2 ^ (5n/2)`
(floor) and `longitude_error = 180 / 2 ^ ((5n+1)/2)` (ceiling), both
strictly positive. -/
theorem c2_decode_exactly_errors (geohash : List Char) (hne : geohash ≠ [])
    (hval : ∀ c ∈ geohash, c ∈ base32) :
    ∃ r : ExactLatLong, decode_exactly geohash = some r ∧
      r.latitude_error = 90 / 2 ^ (5 * geohash.length / 2) ∧
      r.longitude_error = 180 / 2 ^ ((5 * geohash.length + 1) / 2) ∧
      0 < r.latitude_error ∧ 0 < r.longitude_error := by
  obtain ⟨st', h1, h2, h3⟩ :=
    decodeLoop_err geohash ⟨-90, 90, -180, 180, 90, 180, true⟩ hval
  obtain ⟨hs1, hs2, hs3, hs4⟩ := steps_closed geohash.length
  refine ⟨⟨(st'.lat_lo + st'.lat_hi) / 2, (st'.lon_lo + st'.lon_hi) / 2,
    st'.lat_err, st'.lon_err⟩, ?_, ?_, ?_, ?_, ?_⟩
  · unfold decode_exactly
    rw [h1]
    rfl
  · rw [h2]
    dsimp only
    rw [hs1]
  · rw [h3]
    dsimp only
    rw [hs3]
  · rw [h2]
    dsimp only
    rw [hs1]
    positivity
  · rw [h3]
    dsimp only
    rw [hs3]
    positivity

/-- Witness for C2 at the geohash `"u4"`. -/
theorem c2_decode_exactly_errors_witness :
    ("u4".toList ≠ [] ∧ ∀ c ∈ "u4".toList, c ∈ base32) ∧
    (∃ r : ExactLatLong, decode_exactly "u4".toList = some r ∧
      r.latitude_error = 90 / 2 ^ (5 * ("u4".toList).length / 2) ∧
      r.longitude_error = 180 / 2 ^ ((5 * ("u4".toList).length + 1) / 2) ∧
      0 < r.latitude_error ∧ 0 < r.longitude_error) :=
  ⟨⟨by decide, by decide⟩,
   c2_decode_exactly_errors "u4".toList (by decide) (by decide)⟩

/-- C5: `get_adjacent` reproduces the reference-fixture neighbors, including
the cross-parent border case. -/
theorem c5_get_adjacent_fixtures :
    get_adjacent "gbsuv".toList .right = some "gbsuy".toList ∧
    get_adjacent "gbsuv".toList .left = some "gbsuu".toList ∧
    get_adjacent "gbsuv".toList .top = some "gbsvj".toList ∧
    get_adjacent "gbsuv".toList .bottom = some "gbsut".toList ∧
    get_adjacent "u00000".toList .left = some "gbpbpb".toList := by
  refine ⟨?_, ?_, ?_, ?_, ?_⟩ <;> decide

/-- C6: `get_adjacent` fails with the "geohash length cannot be 0" error
(modelled as `none`) on an empty input, the failure propagates through the
recursive border walk, and the two polar fixtures fail. -/
theorem c6_empty_geohash_failure :
    (∀ d : Direction, get_adjacent [] d = none) ∧
    get_adjacent "gzzzzz".toList .top = none ∧
    get_adjacent "5bpbpbh".toList .bottom = none ∧
    (∀ (d : Direction) (last_char : Char) (baseRev : List Char),
      last_char ∈ BORDERS d ((baseRev.length + 1) % 2 == 0) →
      getAdjacentRev d baseRev = none →
      getAdjacentRev d (last_char :: baseRev) = none) := by
  refine ⟨fun d => by cases d <;> rfl, by decide, by decide, ?_⟩
  intro d last_char baseRev hb hrec
  simp only [getAdjacentRev, if_pos hb, hrec, Option.none_bind]

/-- Witness for C6's propagation conjunct at direction `top`, last
character `z`, empty parent. -/
theorem c6_empty_geohash_failure_witness :
    ('z' ∈ BORDERS .top ((([] : List Char).length + 1) % 2 == 0) ∧
      getAdjacentRev .top [] = none) ∧
    getAdjacentRev .top ['z'] = none :=
  ⟨⟨by decide, rfl⟩,
   (c6_empty_geohash_failure.2.2.2) .top 'z' [] (by decide) rfl⟩

/-- C7 (code-bug evidence): `decode_exactly` accepts the empty string and
returns the degenerate midpoint `(0, 0)` with the full-globe error margins,
instead of rejecting it; the repository's own tests require
`ValueError("Geohash cannot be empty")` here. -/
theorem c7_decode_exactly_accepts_empty :
    decode_exactly [] = some ⟨0, 0, 90, 180⟩ ∧ decode [] = some ⟨0, 0⟩ := by
  constructor <;> with_unfolding_all rfl

/-- C8 (code-bug evidence): `encode` performs no precision validation: at
precision 0 it silently returns the empty string instead of raising
`ValueError("Precision must be between 1 and 12")` as the repository's own
tests require; likewise precision 13 yields a 13-character geohash. -/
theorem c8_encode_no_precision_validation :
    encode 42.6 (-5.6) 0 = [] ∧ (encode 42.6 (-5.6) 13).length = 13 := by
  constructor
  · rfl
  · rw [encode_eq_encChars, encChars_length]

lemma getAdjacentRev_length (d : Direction) : ∀ (l r : List Char),
    getAdjacentRev d l = some r → r.length = l.length := by
  intro l
  induction l with
  | nil => intro r h; simp [getAdjacentRev] at h
  | cons c cs ih =>
    intro r h
    simp only [getAdjacentRev, Option.bind_eq_some, Option.map_eq_some'] at h
    obtain ⟨b, hb, idx, hidx, ch, hch, hr⟩ := h
    have hblen : b.length = cs.length := by
      by_cases hbd : c ∈ BORDERS d ((cs.length + 1) % 2 == 0)
      · rw [if_pos hbd] at hb
        exact ih b hb
      · rw [if_neg hbd] at hb
        cases hb
        rfl
    rw [← hr, List.length_cons, hblen]
    exact (List.length_cons c cs).symm

/-- C10: whenever `get_adjacent` returns without raising, on a nonempty
geohash over the alphabet in either case, the returned geohash has the same
length as the input. -/
theorem c10_get_adjacent_length (geohash : List Char) (direction : Direction)
    (hne : geohash ≠ []) (hval : ∀ c ∈ geohash, c.toLower ∈ base32)
    (r : List Char) (h : get_adjacent geohash direction = some r) :
    r.length = geohash.length := by
  unfold get_adjacent at h
  rw [Option.map_eq_some'] at h
  obtain ⟨r0, h0, hr⟩ := h
  have := getAdjacentRev_length direction _ _ h0
  rw [← hr, List.length_reverse, this, List.length_reverse, List.length_map]

/-- Witness for C10 at geohash `"Gb"` (mixed case), direction `right`. -/
theorem c10_get_adjacent_length_witness :
    ("Gb".toList ≠ [] ∧ (∀ c ∈ "Gb".toList, c.toLower ∈ base32) ∧
      get_adjacent "Gb".toList .right = some "u0".toList) ∧
    ("u0".toList).length = ("Gb".toList).length :=
  ⟨⟨by decide, by decide, by decide⟩,
   c10_get_adjacent_length "Gb".toList .right (by decide) (by decide) "u0".toList (by decide)⟩

lemma nb_eq_encode_loop (lat lon : ℚ) (p : ℕ) : ∀ (fuel : ℕ) (alo ahi olo ohi : ℚ)
    (gh : List Char) (bit ch : ℕ) (e : Bool),
    noTieLoop lat lon p fuel alo ahi olo ohi gh.length bit e = true →
    nbEncodeLoop lat lon p fuel alo ahi olo ohi gh bit ch e =
      encodeLoop lat lon p fuel alo ahi olo ohi gh bit ch e := by
  intro fuel
  induction fuel with
  | zero => intros; rfl
  | succ fuel ih =>
    intro alo ahi olo ohi gh bit ch e hnt
    by_cases hlen : gh.length < p
    · cases e with
      | true =>
        simp only [noTieLoop, if_pos hlen, if_true, if_false, Bool.not_true,
          Bool.not_false, Bool.false_eq_true] at hnt
        rw [Bool.and_eq_true, decide_eq_true_eq] at hnt
        obtain ⟨hne, hnt⟩ := hnt
        by_cases hge : lon ≥ (olo + ohi) / 2
        · have hgt : lon > (olo + ohi) / 2 := lt_of_le_of_ne hge (Ne.symm hne)
          rw [if_pos hge] at hnt
          by_cases hbit : bit < 4
          · rw [if_pos hbit, if_pos hbit] at hnt
            simp only [nbEncodeLoop, encodeLoop, if_pos hlen, if_pos hge, if_pos hgt,
              if_pos hbit, if_true, if_false, Bool.not_true, Bool.not_false, Bool.false_eq_true]
            exact ih _ _ _ _ _ _ _ _ hnt
          · rw [if_neg hbit, if_neg hbit] at hnt
            simp only [nbEncodeLoop, encodeLoop, if_pos hlen, if_pos hge, if_pos hgt,
              if_neg hbit, if_true, if_false, Bool.not_true, Bool.not_false, Bool.false_eq_true]
            refine ih _ _ _ _ _ _ _ _ ?_
            rw [show (gh ++ [base32.getD (ch ||| bitWeights.getD bit 0) ' ']).length =
              gh.length + 1 from by simp]
            exact hnt
        · have hngt : ¬ lon > (olo + ohi) / 2 := fun hcon => hge (le_of_lt hcon)
          rw [if_neg hge] at hnt
          by_cases hbit : bit < 4
          · rw [if_pos hbit, if_pos hbit] at hnt
            simp only [nbEncodeLoop, encodeLoop, if_pos hlen, if_neg hge, if_neg hngt,
              if_pos hbit, if_true, if_false, Bool.not_true, Bool.not_false, Bool.false_eq_true]
            exact ih _ _ _ _ _ _ _ _ hnt
          · rw [if_neg hbit, if_neg hbit] at hnt
            simp only [nbEncodeLoop, encodeLoop, if_pos hlen, if_neg hge, if_neg hngt,
              if_neg hbit, if_true, if_false, Bool.not_true, Bool.not_false, Bool.false_eq_true]
            refine ih _ _ _ _ _ _ _ _ ?_
            rw [show (gh ++ [base32.getD ch ' ']).length = gh.length + 1 from by simp]
            exact hnt
      | false =>
        simp only [noTieLoop, if_pos hlen, if_true, if_false, Bool.not_true,
          Bool.not_false, Bool.false_eq_true] at hnt
        rw [Bool.and_eq_true, decide_eq_true_eq] at hnt
        obtain ⟨hne, hnt⟩ := hnt
        by_cases hge : lat ≥ (alo + ahi) / 2
        · have hgt : lat > (alo + ahi) / 2 := lt_of_le_of_ne hge (Ne.symm hne)
          rw [if_pos hge] at hnt
          by_cases hbit : bit < 4
          · rw [if_pos hbit, if_pos hbit] at hnt
            simp only [nbEncodeLoop, encodeLoop, if_pos hlen, if_pos hge, if_pos hgt,
              if_pos hbit, if_true, if_false, Bool.not_true, Bool.not_false, Bool.false_eq_true]
            exact ih _ _ _ _ _ _ _ _ hnt
          · rw [if_neg hbit, if_neg hbit] at hnt
            simp only [nbEncodeLoop, encodeLoop, if_pos hlen, if_pos hge, if_pos hgt,
              if_neg hbit, if_true, if_false, Bool.not_true, Bool.not_false, Bool.false_eq_true]
            refine ih _ _ _ _ _ _ _ _ ?_
            rw [show (gh ++ [base32.getD (ch ||| bitWeights.getD bit 0) ' ']).length =
              gh.length + 1 from by simp]
            exact hnt
        · have hngt : ¬ lat > (alo + ahi) / 2 := fun hcon => hge (le_of_lt hcon)
          rw [if_neg hge] at hnt
          by_cases hbit : bit < 4
          · rw [if_pos hbit, if_pos hbit] at hnt
            simp only [nbEncodeLoop, encodeLoop, if_pos hlen, if_neg hge, if_neg hngt,
              if_pos hbit, if_true, if_false, Bool.not_true, Bool.not_false, Bool.false_eq_true]
            exact ih _ _ _ _ _ _ _ _ hnt
          · rw [if_neg hbit, if_neg hbit] at hnt
            simp only [nbEncodeLoop, encodeLoop, if_pos hlen, if_neg hge, if_neg hngt,
              if_neg hbit, if_true, if_false, Bool.not_true, Bool.not_false, Bool.false_eq_true]
            refine ih _ _ _ _ _ _ _ _ ?_
            rw [show (gh ++ [base32.getD ch ' ']).length = gh.length + 1 from by simp]
            exact hnt
    · simp only [nbEncodeLoop, encodeLoop, if_neg hlen]

/-- C9 counterexample: the numba backend and the pure-Python encoder differ
at the exact-midpoint input `(0, 0)` at precision 1 (`encode` emits `"s"`
by the `>=` tie-break, `nb_point_encode` emits `"7"` by the `>`
tie-break). -/
theorem c9_nb_point_encode_ne_encode : nb_point_encode 0 0 1 ≠ encode 0 0 1 := by
  have h1 : nb_point_encode 0 0 1 = "7".toList := by with_unfolding_all rfl
  have h2 : encode 0 0 1 = "s".toList := by with_unfolding_all rfl
  rw [h1, h2]
  decide

/-- C9 amended: for every latitude in [-90, 90], longitude in [-180, 180]
and precision in [1, 12] such that no bisection comparison is an exact
midpoint tie, `nb_point_encode` agrees with `encode`; at exact ties the two
backends differ (see the counterexample). -/
theorem c9_nb_point_encode_eq_encode_no_tie (lat lon : ℚ) (p : ℕ)
    (hlat1 : -90 ≤ lat) (hlat2 : lat ≤ 90) (hlon1 : -180 ≤ lon) (hlon2 : lon ≤ 180)
    (hp1 : 1 ≤ p) (hp2 : p ≤ 12) (hnt : noTie lat lon p = true) :
    nb_point_encode lat lon p = encode lat lon p := by
  unfold nb_point_encode encode
  unfold noTie at hnt
  exact nb_eq_encode_loop lat lon p (5 * p) (-90) 90 (-180) 180 [] 0 0 true hnt

/-- Witness for the amended C9 at latitude 42.6, longitude -5.6,
precision 1. -/
theorem c9_nb_point_encode_eq_encode_no_tie_witness :
    ((-90 : ℚ) ≤ 42.6 ∧ (42.6 : ℚ) ≤ 90 ∧ (-180 : ℚ) ≤ -5.6 ∧ (-5.6 : ℚ) ≤ 180 ∧
      1 ≤ 1 ∧ 1 ≤ 12 ∧ noTie 42.6 (-5.6) 1 = true) ∧
    nb_point_encode 42.6 (-5.6) 1 = encode 42.6 (-5.6) 1 :=
  ⟨⟨by norm_num, by norm_num, by norm_num, by norm_num, by norm_num, by norm_num,
    by with_unfolding_all rfl⟩,
   c9_nb_point_encode_eq_encode_no_tie 42.6 (-5.6) 1 (by norm_num) (by norm_num)
     (by norm_num) (by norm_num) (by norm_num) (by norm_num) (by with_unfolding_all rfl)⟩
